import Mathlib

/-!
Verification of the offline batched-inference driver
(`MaxText/inference_mlperf/offline_inference.py`).

The Python source is shallowly embedded: pure Lean functions mirror the
scheduling, bucketing, warm-up, slot-pool and emission logic of
`OfflineInference`.  Machine integers are modelled as `Nat` (token ids,
lengths, slots) with Python's signed comparisons carried out in `Int`
where the source can go negative.  The opaque JAX executor calls
(`prefill`, `prefill_concat`, `insert`, `insert_partial`, `generate`)
are external collaborators; what is modelled is everything the driver
itself decides: which compiled variant is selected, which requests are
bucketed, flushed, or prefilled immediately, how slots move between the
free list and the occupancy map, and how tokens are recorded by the
bulk-API callback.
-/

namespace OfflineInf

/-- `InputData` from the source: `{id, tokens, true_length}`.  Token ids and
request identities are modelled as `Nat`. -/
structure InputData where
  id : Nat
  tokens : List Nat
  true_length : Nat
deriving DecidableEq, Repr, Inhabited

/-- A request's padded length: `len(row.tokens)` / `row.tokens.shape[0]`. -/
def paddedLen (r : InputData) : Nat := r.tokens.length

/-! ## Warm-up / compiled-variant cache (source lines 93-179) -/

/-- The `interesting_buckets` list from `warmup`. -/
def interesting_buckets : List Nat := [64, 128, 256, 512, 1024, 2048, 4096]

/-- Lengths for which a single-request prefill variant is compiled:
the loop over `interesting_buckets` breaks at the first `length > max_length`. -/
def warmupSingleLengths (max_length : Nat) : List Nat :=
  interesting_buckets.takeWhile (fun L => decide (L ≤ max_length))

/-- `range(min_num_prompts, max_num_prompts)` from `warmup`:
`min_num_prompts = max_length // length`,
`max_num_prompts = max_length // (length // 2)`. -/
def batchCountsFor (max_length L : Nat) : List Nat :=
  List.range' (max_length / L) (max_length / (L / 2) - max_length / L)

/-- The set of `(length, num_prompts)` keys inserted into
`self._cached_pref_batch` by `warmup`: every interesting length not
exceeding `max_length`, except lengths 64 and 1024 (`if length in (64, 1024):
continue`), paired with each `num_prompts` in
`range(max_length // length, max_length // (length // 2))`. -/
def warmupBatchKeys (max_length : Nat) : List (Nat × Nat) :=
  ((warmupSingleLengths max_length).filter
      (fun L => decide (L ≠ 64) && decide (L ≠ 1024))).flatMap
    (fun L => (batchCountsFor max_length L).map (fun n => (L, n)))

/-! ## Prefill dispatch (source lines 234-306) -/

/-- Which execution path the inner `prefill` function takes. -/
inductive PrefillPath where
  | dummy
  | singles (L : Nat)
  | batched (L n : Nat)
deriving DecidableEq, Repr

/-- The variant-selection logic of the inner `prefill` function
(lines 236-292).  `none` models the `assert False` raised when the
required compiled variant is absent from the cache; no variant is ever
compiled lazily.  `cachedPref` and `cachedPrefBatch` are the key sets of
`self._cached_pref` / `self._cached_pref_batch`. -/
def prefillPath (dummyMode enableBatchPref : Bool) (maxPrefillLen : Nat)
    (cachedPref : List Nat) (cachedPrefBatch : List (Nat × Nat))
    (bucketLen L : Nat) : Option PrefillPath :=
  if dummyMode then some .dummy
  else if !enableBatchPref || L == maxPrefillLen || L * bucketLen < maxPrefillLen then
    if L ∈ cachedPref then some (.singles L) else none
  else
    if (L, bucketLen) ∈ cachedPrefBatch then some (.batched L bucketLen) else none

/-! ## Bulk-API result recording (source lines 490-498) -/

/-- One step of the `callback` closure in `batch_inference`: append `token`
to the recorded sequence unless the sequence already ends in the
end-of-sequence marker (`if not res[id_] or res[id_][-1] != eos_id`). -/
def callbackStep (eos_id : Nat) (cur : List Nat) (token : Nat) : List Nat :=
  if cur = [] ∨ cur.getLast? ≠ some eos_id then cur ++ [token] else cur

/-- The sequence recorded for one identity after a stream of emitted
tokens, starting from the empty `defaultdict(list)` entry. -/
def recordedTokens (eos_id : Nat) (emitted : List Nat) : List Nat :=
  emitted.foldl (callbackStep eos_id) []

/-- One emission event `(identity, token)` applied to the whole `res`
mapping of `batch_inference`. -/
def applyEmit (eos_id : Nat) (res : Nat → List Nat) (e : Nat × Nat) : Nat → List Nat :=
  fun i => if i = e.1 then callbackStep eos_id (res e.1) e.2 else res i

/-- The `res` mapping after an interleaved stream of emission events. -/
def runEmissions (eos_id : Nat) (es : List (Nat × Nat)) : Nat → List Nat :=
  es.foldl (applyEmit eos_id) (fun _ => [])

/-! ## Prefill bucketing engine (source lines 397-466)

`self.prefill_buckets` is a `defaultdict(list)`; it is modelled as a total
function `buckets : Nat → List (Nat × InputData)` (value `[]` outside the
key set), together with the list `keys` of keys present in the dict (a
`defaultdict` inserts a key on every access, and the end-of-input flush
iterates over the keys).  Every `prefill` / `prefill_batch` call is
recorded in `trace` as the bucket passed to it, in call order. -/

structure Sched where
  keys : List Nat
  buckets : Nat → List (Nat × InputData)
  trace : List (List (Nat × InputData))

/-- The state at the start of `batch_inference_with_callback`:
empty dict, no prefill call made yet. -/
def initSched : Sched := ⟨[], fun _ => [], []⟩

/-- `defaultdict` key insertion: any access to `self.prefill_buckets[k]`
adds `k` to the key set. -/
def touchKey (s : Sched) (k : Nat) : Sched :=
  if k ∈ s.keys then s else ⟨s.keys ++ [k], s.buckets, s.trace⟩

/-- Assignment `self.prefill_buckets[k] = v`. -/
def setBucket (s : Sched) (k : Nat) (v : List (Nat × InputData)) : Sched :=
  ⟨(touchKey s k).keys, Function.update (touchKey s k).buckets k v, (touchKey s k).trace⟩

/-- Appending prefill calls to the recorded call trace. -/
def pushTraces (s : Sched) (bs : List (List (Nat × InputData))) : Sched :=
  ⟨s.keys, s.buckets, s.trace ++ bs⟩

/-- `prefill_batch(self.prefill_buckets[k], k); self.prefill_buckets[k] = []`
(lines 427-428): record the bucket as one prefill call and clear it. -/
def flushBucket (s : Sched) (k : Nat) : Sched :=
  setBucket (pushTraces s [s.buckets k]) k []

/-- `prefill([(slot, row)], padded_len)` on a single request followed by
putting its first token on the backlog (lines 422-423 and 430-431). -/
def prefillSingle (s : Sched) (slot : Nat) (row : InputData) : Sched :=
  pushTraces s [[(slot, row)]]

/-- Total true token length of a bucket:
`sum(row.true_length for (slot, row) in bucket)`. -/
def totalTrueLen (b : List (Nat × InputData)) : Nat :=
  (b.map (fun p => p.2.true_length)).sum

/-- The flush decision of lines 440-462, taken after a request has been
appended to its bucket.  Returns the list of flushed prefill calls and
the new contents of the bucket.  The comparisons are carried out in `Int`
exactly as Python evaluates `self.max_prefill_length - padded_len // 2 <
total_true_len <= self.max_prefill_length`. -/
def flushDecision (maxPrefillLen L : Nat) (b : List (Nat × InputData)) :
    List (List (Nat × InputData)) × List (Nat × InputData) :=
  if maxPrefillLen ≤ b.length * L then
    if (maxPrefillLen : Int) - (L / 2 : Nat) < (totalTrueLen b : Int) ∧
        (totalTrueLen b : Int) ≤ (maxPrefillLen : Int) then
      ([b], [])
    else if (totalTrueLen b : Int) > (maxPrefillLen : Int) then
      ([b.dropLast], b.getLast?.toList)
    else ([], b)
  else ([], b)

/-- Apply the flush decision to the bucket for length `L`
(lines 440-462: `prefill_batch` then reassignment of the bucket). -/
def bucketCheck (maxPrefillLen : Nat) (s : Sched) (L : Nat) : Sched :=
  setBucket (pushTraces s (flushDecision maxPrefillLen L (s.buckets L)).1) L
    (flushDecision maxPrefillLen L (s.buckets L)).2

/-- Zero-extension of a length-64 request (line 434:
`row.tokens = jnp.concat([row.tokens, jnp.zeros(64, dtype=int)])`). -/
def extendRow (row : InputData) : InputData :=
  { row with tokens := row.tokens ++ List.replicate 64 0 }

/-- Lines 426-428: `if len(self.prefill_buckets[padded_len // 2]) != 0:
prefill_batch(...); self.prefill_buckets[padded_len // 2] = []` (the
`defaultdict` read inserts the key even when the bucket is empty). -/
def halfFlush (s : Sched) (padded_len : Nat) : Sched :=
  let s := touchKey s (padded_len / 2)
  if s.buckets (padded_len / 2) ≠ [] then flushBucket s (padded_len / 2) else s

/-- The body of the producer loop `for row in data` (lines 397-462) for
one request, after a slot has been acquired.  Mirrors, in order: the
`not self.enable_batch_prefill` immediate path, the flush of the
half-length bucket, the `padded_len == self.max_prefill_length` immediate
path, the 64 → 128 zero-extension, the append to the bucket, and the
flush decision. -/
def processRow (maxPrefillLen : Nat) (enableBatchPref : Bool)
    (s : Sched) (slot : Nat) (row : InputData) : Sched :=
  let padded_len := paddedLen row
  if !enableBatchPref then prefillSingle s slot row
  else
    let s := halfFlush s padded_len
    if padded_len == maxPrefillLen then prefillSingle s slot row
    else
      let rl : InputData × Nat :=
        if padded_len == 64 then (extendRow row, 128) else (row, padded_len)
      let s := setBucket s rl.2 (s.buckets rl.2 ++ [(slot, rl.1)])
      bucketCheck maxPrefillLen s rl.2

/-- End-of-input flush (lines 463-466): every remaining bucket is passed
to `prefill_batch`, then `self.prefill_buckets = defaultdict(list)`. -/
def finishRun (s : Sched) : Sched :=
  { keys := [], buckets := fun _ => [],
    trace := s.trace ++ s.keys.map s.buckets }

/-- The whole bucketing pipeline of `batch_inference_with_callback` over a
request list, with the slot acquired for the `i`-th request supplied by
the oracle `slotOf` (slot values never influence the bucketing control
flow). -/
def runSched (maxPrefillLen : Nat) (enableBatchPref : Bool)
    (slotOf : Nat → Nat) (data : List InputData) : Sched :=
  finishRun
    ((data.enum.map (fun p => (slotOf p.1, p.2))).foldl
      (fun s p => processRow maxPrefillLen enableBatchPref s p.1 p.2) initSched)

/-! ## `batch_inference` input regrouping (source lines 476-489) -/

/-- The per-length grouping `data_dict` (grouping preserves input order). -/
def dataDict (data : List InputData) (L : Nat) : List InputData :=
  data.filter (fun r => decide (paddedLen r = L))

/-- The request list actually served by `batch_inference`: grouped by
padded length, the length-64 group appended to the length-128 group,
each group shuffled (`random.shuffle`, modelled by the oracle `shuffle`),
groups concatenated in the order `[128, 256, 512, 1024]`.  Requests of
any other padded length never enter the served list. -/
def regroup (shuffle : Nat → List InputData → List InputData)
    (data : List InputData) : List InputData :=
  (([128, 256, 512, 1024] : List Nat).map
    (fun L =>
      shuffle L (if L = 128 then dataDict data 128 ++ dataDict data 64 else dataDict data L))).flatten

/-- The padded lengths that survive `batch_inference`'s regrouping. -/
def servedLengths : List Nat := [64, 128, 256, 512, 1024]

/-! ## Emission (detokenize) loop body (source lines 354-386) -/

/-- One entry popped from `self.detokenize_backlog`: either a first-token
entry `(result, True, row_id, slot)` or a step entry `(result, False, 0, 0)`.
A step result carries, per slot, `(token, is_valid, length)` as read from
`result_tokens.data[slot]`. -/
inductive BacklogEntry where
  | first (token : Nat) (row_id : Nat) (slot : Nat)
  | step (res : Nat → Nat × Bool × Nat)

/-- `newly_empty` of one step entry (lines 372-379): the slots of
`slot_to_id` whose callback signals termination (`is_valid` and
`emit_token` true) or whose accumulated length reaches
`self.max_decode_length`. -/
def newlyEmpty (maxDecodeLen : Nat) (emitTok : Nat → Nat → Bool)
    (slot_to_id : List (Nat × Nat)) (res : Nat → Nat × Bool × Nat) : List Nat :=
  (slot_to_id.filter (fun p =>
    ((res p.1).2.1 && emitTok p.2 (res p.1).1) || decide ((res p.1).2.2 ≥ maxDecodeLen))).map
    Prod.fst

/-- One iteration of the `detokenize` loop body (lines 360-386), given the
entry popped from the queue and whether the queue is empty at the break
check (`self.detokenize_backlog.qsize() == 0`).  Returns the new
`slot_to_id` map, the new `empty_slots` list, and whether the loop
breaks.  First-token entries `continue`; step entries delete every
`newly_empty` slot from the occupancy map, return those slots to
`empty_slots`, and break exactly when `newly_empty` is non-empty, the
queue is empty and no slot remains occupied. -/
def detokenizeStep (maxDecodeLen : Nat)
    (emitFirst emitTok : Nat → Nat → Bool)
    (slot_to_id : List (Nat × Nat)) (empty_slots : List Nat)
    (e : BacklogEntry) (queueEmpty : Bool) :
    List (Nat × Nat) × List Nat × Bool :=
  match e with
  | .first token row_id slot =>
    if !emitFirst row_id token then
      (slot_to_id ++ [(slot, row_id)], empty_slots, false)
    else
      (slot_to_id, empty_slots ++ [slot], false)
  | .step res =>
    let newly := newlyEmpty maxDecodeLen emitTok slot_to_id res
    let remaining := slot_to_id.filter (fun p => decide (p.1 ∉ newly))
    (remaining, empty_slots ++ newly,
      decide (newly ≠ []) && queueEmpty && decide (remaining = []))

/-! ## Slot pool transitions (source lines 317, 361-386, 419)

The free-slot list and the occupancy map are manipulated at three
places: the producer pops a free slot (`slot = empty_slots.pop()`,
line 419, popping the last element) and queues the prefilled request; the
emission loop registers a first-token entry's slot as occupied or
immediately returns it (lines 364-371); the emission loop frees the
`newly_empty` slots of a step entry (lines 372-384).  A `(slot, id)` pair
that was acquired but whose first-token entry has not yet been processed
is in flight in the queue; those pairs form the `pending` component. -/

structure SlotState where
  empty_slots : List Nat
  pending : List (Nat × Nat)
  slot_to_id : List (Nat × Nat)
deriving DecidableEq, Repr

/-- Events on the slot pool.  `stepFree slots` is the batch release of a
step entry's `newly_empty` slots, which are pairwise distinct keys of
`slot_to_id` (they are collected while iterating `slot_to_id.items()`);
an event violating that queue discipline, or an `acquire` on an empty
free list (where the producer instead blocks and decodes), is rejected. -/
inductive SlotEv where
  | acquire (id : Nat)
  | firstToken (slot : Nat) (terminate : Bool)
  | stepFree (slots : List Nat)
deriving DecidableEq, Repr

/-- Ids of `acquire` events, in order: the served requests' identities. -/
def acquireIds : List SlotEv → List Nat
  | [] => []
  | .acquire i :: es => i :: acquireIds es
  | _ :: es => acquireIds es

/-- One slot-pool transition. -/
def slotStep (s : SlotState) : SlotEv → Option SlotState
  | .acquire i =>
    match s.empty_slots.getLast? with
    | none => none
    | some slot =>
      some ⟨s.empty_slots.dropLast, s.pending ++ [(slot, i)], s.slot_to_id⟩
  | .firstToken slot terminate =>
    match s.pending.find? (fun p => p.1 == slot) with
    | none => none
    | some p =>
      let pend := s.pending.eraseP (fun q => q.1 == slot)
      if terminate then some ⟨s.empty_slots ++ [slot], pend, s.slot_to_id⟩
      else some ⟨s.empty_slots, pend, s.slot_to_id ++ [(slot, p.2)]⟩
  | .stepFree slots =>
    if slots.Nodup ∧ ∀ x ∈ slots, x ∈ s.slot_to_id.map Prod.fst then
      some ⟨s.empty_slots ++ slots, s.pending,
        s.slot_to_id.filter (fun p => decide (p.1 ∉ slots))⟩
    else none

/-- `empty_slots = list(range(self.batch_size))`, `slot_to_id = {}`
(lines 317-318). -/
def initSlots (batch_size : Nat) : SlotState := ⟨List.range batch_size, [], []⟩

/-- Run a sequence of slot-pool events from a state. -/
def runSlotsFrom (s : SlotState) : List SlotEv → Option SlotState
  | [] => some s
  | e :: es =>
    match slotStep s e with
    | none => none
    | some s' => runSlotsFrom s' es

/-- Run a sequence of slot-pool events from the initial state. -/
def runSlots (batch_size : Nat) (evs : List SlotEv) : Option SlotState :=
  runSlotsFrom (initSlots batch_size) evs

/-! ## Observables used by the statements -/

/-- Multiset of `(slot, request)` pairs held in the buckets. -/
def bucketMS (s : Sched) : Multiset (Nat × InputData) :=
  (s.keys.map (fun k => ((s.buckets k : List (Nat × InputData)) : Multiset (Nat × InputData)))).sum

/-- Multiset of `(slot, request)` pairs that have been passed to a
prefill call. -/
def traceMS (s : Sched) : Multiset (Nat × InputData) :=
  ((s.trace.flatten : List (Nat × InputData)) : Multiset (Nat × InputData))

/-- Every pair currently accounted for: prefilled or awaiting prefill. -/
def allMS (s : Sched) : Multiset (Nat × InputData) :=
  traceMS s + bucketMS s

/-- Well-formedness of the bucket dict: the key list has no duplicates
and the bucket function is `[]` outside the key set. -/
def SchedWF (s : Sched) : Prop :=
  s.keys.Nodup ∧ ∀ k, k ∉ s.keys → s.buckets k = []

/-- The request actually stored (or immediately prefilled) for an
incoming request: the zero-extended form when the 64 → 128 reclassification
of lines 433-435 applies, the request itself otherwise. -/
def storedRow (enableBatchPref : Bool) (maxPrefillLen : Nat) (row : InputData) : InputData :=
  if enableBatchPref = true ∧ paddedLen row ≠ maxPrefillLen ∧ paddedLen row = 64 then
    extendRow row
  else row

/-- Multiset of all slot indices tracked by the slot pool: free, in
flight after acquisition, or occupied. -/
def allSlotsMS (s : SlotState) : Multiset Nat :=
  (s.empty_slots : Multiset Nat) + (s.pending.map Prod.fst : List Nat)
    + (s.slot_to_id.map Prod.fst : List Nat)

/-- Multiset of identities currently holding a slot (acquired-in-flight
or registered occupied). -/
def outIdsMS (s : SlotState) : Multiset Nat :=
  ((s.pending.map Prod.snd : List Nat) : Multiset Nat)
    + (s.slot_to_id.map Prod.snd : List Nat)

/-! # Theorems -/

/-! ## Bulk-API token recording (claim C6) -/

lemma not_mem_of_not_mem_dropLast_of_getLast?_ne (eos : Nat) (cur : List Nat)
    (h1 : eos ∉ cur.dropLast) (h2 : cur.getLast? ≠ some eos) : eos ∉ cur := by
  rcases List.eq_nil_or_concat cur with rfl | ⟨l, a, rfl⟩
  · simp
  · simp only [List.concat_eq_append] at h1 h2 ⊢
    rw [List.dropLast_concat] at h1
    rw [List.getLast?_concat] at h2
    intro hmem
    rcases List.mem_append.mp hmem with h | h
    · exact h1 h
    · simp only [List.mem_singleton] at h
      exact h2 (by rw [h])

lemma callbackStep_not_mem_dropLast (eos t : Nat) (cur : List Nat)
    (h : eos ∉ cur.dropLast) : eos ∉ (callbackStep eos cur t).dropLast := by
  unfold callbackStep
  split
  · rename_i hc
    rw [List.dropLast_concat]
    rcases hc with rfl | hc
    · simp
    · exact not_mem_of_not_mem_dropLast_of_getLast?_ne eos cur h hc
  · exact h

lemma foldl_callbackStep_not_mem_dropLast (eos : Nat) :
    ∀ (toks cur : List Nat), eos ∉ cur.dropLast →
      eos ∉ (toks.foldl (callbackStep eos) cur).dropLast := by
  intro toks
  induction toks with
  | nil => intro cur h; simpa using h
  | cons t toks ih =>
    intro cur h
    rw [List.foldl_cons]
    exact ih _ (callbackStep_not_mem_dropLast eos t cur h)

lemma eos_count_getLast_of_not_mem_dropLast (eos : Nat) (l : List Nat)
    (h : eos ∉ l.dropLast) :
    l.count eos ≤ 1 ∧ (eos ∈ l → l.getLast? = some eos) := by
  rcases List.eq_nil_or_concat l with rfl | ⟨l', a, rfl⟩
  · simp
  · simp only [List.concat_eq_append] at h ⊢
    rw [List.dropLast_concat] at h
    refine ⟨?_, ?_⟩
    · rw [List.count_append, List.count_eq_zero.mpr h]
      simp [List.count_cons]
      split <;> omega
    · intro hmem
      rw [List.getLast?_concat]
      rcases List.mem_append.mp hmem with hmem | hmem
      · exact absurd hmem h
      · simp only [List.mem_singleton] at hmem
        rw [hmem]

/-- C6: the token sequence recorded for a request by the bulk API
contains the end-of-sequence marker at most once, and only as its final
element; and once the marker is the last recorded token, any further
emission leaves the recorded sequence unchanged. -/
theorem c6_eos_tail_idempotent :
    (∀ eos_id emitted,
      (recordedTokens eos_id emitted).count eos_id ≤ 1 ∧
      (eos_id ∈ recordedTokens eos_id emitted →
        (recordedTokens eos_id emitted).getLast? = some eos_id)) ∧
    (∀ eos_id (xs : List Nat) (t : Nat),
      callbackStep eos_id (xs ++ [eos_id]) t = xs ++ [eos_id]) := by
  constructor
  · intro eos_id emitted
    exact eos_count_getLast_of_not_mem_dropLast eos_id _
      (foldl_callbackStep_not_mem_dropLast eos_id emitted [] (by simp))
  · intro eos_id xs t
    unfold callbackStep
    rw [if_neg]
    push_neg
    exact ⟨by simp, by rw [List.getLast?_concat]⟩

/-! ## Emission-loop exit condition (claim C7) -/

/-- C7: the detokenize loop never breaks after a first-token entry, and
after a step entry it breaks exactly when at least one slot was freed,
the backlog queue is empty, and no slot remains occupied. -/
theorem c7_detokenize_exit_iff
    (maxDecodeLen : Nat) (emitFirst emitTok : Nat → Nat → Bool)
    (slot_to_id : List (Nat × Nat)) (empty_slots : List Nat) (queueEmpty : Bool) :
    (∀ token row_id slot,
      (detokenizeStep maxDecodeLen emitFirst emitTok slot_to_id empty_slots
        (.first token row_id slot) queueEmpty).2.2 = false) ∧
    (∀ res,
      (detokenizeStep maxDecodeLen emitFirst emitTok slot_to_id empty_slots
          (.step res) queueEmpty).2.2 = true ↔
        (newlyEmpty maxDecodeLen emitTok slot_to_id res ≠ [] ∧ queueEmpty = true ∧
          slot_to_id.filter
            (fun p => decide (p.1 ∉ newlyEmpty maxDecodeLen emitTok slot_to_id res)) = [])) := by
  constructor
  · intro token row_id slot
    simp only [detokenizeStep]
    split <;> rfl
  · intro res
    simp only [detokenizeStep]
    simp [Bool.and_eq_true, decide_eq_true_iff, and_assoc]

/-! ## Missing compiled variant is fatal (claim C8) -/

/-- C8: in non-dummy mode, a prefill whose required compiled variant is
absent from the corresponding cache fails at the call site (`assert
False`, modelled by `none`): no variant is compiled lazily and no
fallback path is taken. -/
theorem c8_missing_variant_fatal
    (enableBatchPref : Bool) (maxPrefillLen : Nat)
    (cachedPref : List Nat) (cachedPrefBatch : List (Nat × Nat)) (bucketLen L : Nat) :
    ((enableBatchPref = false ∨ L = maxPrefillLen ∨ L * bucketLen < maxPrefillLen) →
      L ∉ cachedPref →
      prefillPath false enableBatchPref maxPrefillLen cachedPref cachedPrefBatch
        bucketLen L = none) ∧
    (enableBatchPref = true → L ≠ maxPrefillLen → ¬ L * bucketLen < maxPrefillLen →
      (L, bucketLen) ∉ cachedPrefBatch →
      prefillPath false enableBatchPref maxPrefillLen cachedPref cachedPrefBatch
        bucketLen L = none) := by
  constructor
  · intro hcond hmiss
    have hc : (!enableBatchPref || L == maxPrefillLen
        || decide (L * bucketLen < maxPrefillLen)) = true := by
      rcases hcond with h | h | h <;> simp [h]
    simp [prefillPath, hc, hmiss]
  · intro heb hne hlt hmiss
    have hc : (!enableBatchPref || L == maxPrefillLen
        || decide (L * bucketLen < maxPrefillLen)) = false := by
      subst heb
      simp [hne, hlt]
    simp [prefillPath, hc, hmiss]

/-- Witness for C8 at a concrete input: batched prefill enabled, length
128, bucket of 8, maximum 1024, both caches empty. -/
theorem c8_missing_variant_fatal_witness :
    prefillPath false true 1024 [] [] 8 128 = none :=
  (c8_missing_variant_fatal true 1024 [] [] 8 128).2 rfl (by decide) (by decide) (by simp)

/-! ## Warm-up cache contents (claim C3) -/

lemma mem_takeWhile_le_of_pairwise (M : Nat) :
    ∀ (l : List Nat), l.Pairwise (· ≤ ·) → ∀ L,
      (L ∈ l.takeWhile (fun x => decide (x ≤ M)) ↔ L ∈ l ∧ L ≤ M) := by
  intro l hl
  induction l with
  | nil => simp
  | cons a l' ih =>
    intro L
    rcases List.pairwise_cons.mp hl with ⟨ha, hl'⟩
    by_cases haM : a ≤ M
    · rw [List.takeWhile_cons_of_pos (by simpa using haM)]
      rw [List.mem_cons, ih hl' L, List.mem_cons]
      constructor
      · rintro (rfl | ⟨h1, h2⟩)
        · exact ⟨Or.inl rfl, haM⟩
        · exact ⟨Or.inr h1, h2⟩
      · rintro ⟨rfl | h1, h2⟩
        · exact Or.inl rfl
        · exact Or.inr ⟨h1, h2⟩
    · rw [List.takeWhile_cons_of_neg (by simpa using haM)]
      simp only [List.not_mem_nil, false_iff, List.mem_cons]
      rintro ⟨rfl | h1, h2⟩
      · exact haM h2
      · exact haM (le_trans (ha L h1) h2)

lemma mem_warmupSingleLengths (M L : Nat) :
    L ∈ warmupSingleLengths M ↔ L ∈ interesting_buckets ∧ L ≤ M :=
  mem_takeWhile_le_of_pairwise M interesting_buckets (by decide) L

lemma interesting_buckets_two_le {L : Nat} (h : L ∈ interesting_buckets) : 2 ≤ L := by
  simp only [interesting_buckets, List.mem_cons, List.mem_singleton,
    List.not_mem_nil, or_false] at h
  omega

/-- C3 counterexample: with maximum length 1024, the feasible pair
`(128, 2)` (`128 * 2 ≤ 1024`, `128 ∉ {64, max}`) gets no batched
variant, while the key `(128, 15)` is built although
`128 * 15 = 1920 > 1024`. -/
theorem c3_counterexample :
    ((128, 2) ∉ warmupBatchKeys 1024 ∧ 128 * 2 ≤ 1024 ∧
      (128 : Nat) ≠ 64 ∧ (128 : Nat) ≠ 1024) ∧
    ((128, 15) ∈ warmupBatchKeys 1024 ∧ ¬ 128 * 15 ≤ 1024) := by decide

/-- C3 amended: the warm-up populates the single-request cache with every
interesting bucket length not exceeding the maximum, and the batched
cache with exactly the keys `(L, n)` where `L` is an interesting length
not exceeding the maximum other than 64 and 1024, and
`max / L ≤ n < max / (L / 2)` (the number of same-length requests whose
total padded size first reaches, respectively would roughly double, the
maximum prefill budget) — not the pairs with `L * n ≤ max`. -/
theorem c3_amended_warmup_keys (max_length L n : Nat) :
    (L ∈ warmupSingleLengths max_length ↔ L ∈ interesting_buckets ∧ L ≤ max_length) ∧
    ((L, n) ∈ warmupBatchKeys max_length ↔
      (L ∈ interesting_buckets ∧ L ≤ max_length ∧ L ≠ 64 ∧ L ≠ 1024 ∧
        max_length / L ≤ n ∧ n < max_length / (L / 2))) := by
  refine ⟨mem_warmupSingleLengths max_length L, ?_⟩
  unfold warmupBatchKeys batchCountsFor
  rw [List.mem_flatMap]
  constructor
  · rintro ⟨a, ha, hmem⟩
    rw [List.mem_map] at hmem
    obtain ⟨m, hm, heq⟩ := hmem
    have h1 : a = L := congrArg Prod.fst heq
    have h2 : m = n := congrArg Prod.snd heq
    rw [h1] at ha
    rw [h1] at hm
    rw [h2] at hm
    rw [List.mem_filter] at ha
    obtain ⟨haS, hcond⟩ := ha
    rw [mem_warmupSingleLengths] at haS
    simp only [Bool.and_eq_true, decide_eq_true_iff] at hcond
    rw [List.mem_range'] at hm
    obtain ⟨i, hi, rfl⟩ := hm
    have h2L : 2 ≤ L := interesting_buckets_two_le haS.1
    have hdiv : max_length / L ≤ max_length / (L / 2) :=
      Nat.div_le_div_left (by omega) (by omega)
    exact ⟨haS.1, haS.2, hcond.1, hcond.2, by omega, by omega⟩
  · rintro ⟨hIB, hle, h64, h1024, hlo, hhi⟩
    refine ⟨L, ?_, ?_⟩
    · rw [List.mem_filter, mem_warmupSingleLengths]
      simp only [Bool.and_eq_true, decide_eq_true_iff]
      exact ⟨⟨hIB, hle⟩, h64, h1024⟩
    · rw [List.mem_map]
      refine ⟨n, ?_, rfl⟩
      rw [List.mem_range']
      exact ⟨n - max_length / L, by omega, by omega⟩


/-! ## Dict operation projections -/

lemma touchKey_buckets (s : Sched) (k : Nat) : (touchKey s k).buckets = s.buckets := by
  unfold touchKey; split <;> rfl

lemma touchKey_trace (s : Sched) (k : Nat) : (touchKey s k).trace = s.trace := by
  unfold touchKey; split <;> rfl

lemma setBucket_buckets_self (s : Sched) (k : Nat) (v : List (Nat × InputData)) :
    (setBucket s k v).buckets k = v := by
  unfold setBucket
  simp [touchKey_buckets, Function.update_same]

lemma setBucket_buckets_ne (s : Sched) (k : Nat) (v : List (Nat × InputData))
    (k' : Nat) (h : k' ≠ k) : (setBucket s k v).buckets k' = s.buckets k' := by
  unfold setBucket
  simp [touchKey_buckets, Function.update_noteq h]

lemma setBucket_trace (s : Sched) (k : Nat) (v : List (Nat × InputData)) :
    (setBucket s k v).trace = s.trace := by
  unfold setBucket
  simp [touchKey_trace]

lemma flushBucket_buckets_ne (s : Sched) (k k' : Nat) (h : k' ≠ k) :
    (flushBucket s k).buckets k' = s.buckets k' := by
  unfold flushBucket
  rw [setBucket_buckets_ne _ _ _ _ h]
  rfl

/-! ## Bucket flush trichotomy (claim C2) -/

lemma flushDecision_cases (maxPrefillLen L : Nat) (b : List (Nat × InputData))
    (h : maxPrefillLen ≤ b.length * L) :
    (((maxPrefillLen : Int) - (L / 2 : Nat) < (totalTrueLen b : Int) ∧
        (totalTrueLen b : Int) ≤ (maxPrefillLen : Int)) →
      flushDecision maxPrefillLen L b = ([b], [])) ∧
    ((totalTrueLen b : Int) > (maxPrefillLen : Int) →
      flushDecision maxPrefillLen L b = ([b.dropLast], b.getLast?.toList)) ∧
    ((totalTrueLen b : Int) ≤ (maxPrefillLen : Int) - (L / 2 : Nat) →
      flushDecision maxPrefillLen L b = ([], b)) := by
  unfold flushDecision
  refine ⟨?_, ?_, ?_⟩ <;> intro hT
  · rw [if_pos h, if_pos hT]
  · rw [if_pos h, if_neg (by omega), if_pos hT]
  · rw [if_pos h, if_neg (by omega), if_neg (by omega)]

/-- C2: once appending a request makes its bucket reach total padded
budget `bucket_size * L ≥ max_prefill_length`, the outcome is the exact
trichotomy on the bucket's total true length `T`: the whole bucket is
flushed (one batched prefill call, bucket left empty) when
`max − L/2 < T ≤ max`; all members but the last-added are flushed and
only the last remains when `T > max`; and nothing is flushed — the
bucket is left as it stands — when `T ≤ max − L/2`. -/
theorem c2_flush_trichotomy (maxPrefillLen L : Nat) (s : Sched)
    (h : maxPrefillLen ≤ (s.buckets L).length * L) :
    (((maxPrefillLen : Int) - (L / 2 : Nat) < (totalTrueLen (s.buckets L) : Int) ∧
        (totalTrueLen (s.buckets L) : Int) ≤ (maxPrefillLen : Int)) →
      (bucketCheck maxPrefillLen s L).buckets L = [] ∧
      (bucketCheck maxPrefillLen s L).trace = s.trace ++ [s.buckets L]) ∧
    ((totalTrueLen (s.buckets L) : Int) > (maxPrefillLen : Int) →
      s.buckets L ≠ [] ∧
      (bucketCheck maxPrefillLen s L).buckets L = (s.buckets L).getLast?.toList ∧
      (bucketCheck maxPrefillLen s L).trace = s.trace ++ [(s.buckets L).dropLast]) ∧
    ((totalTrueLen (s.buckets L) : Int) ≤ (maxPrefillLen : Int) - (L / 2 : Nat) →
      (bucketCheck maxPrefillLen s L).buckets L = s.buckets L ∧
      (bucketCheck maxPrefillLen s L).trace = s.trace) := by
  obtain ⟨hc1, hc2, hc3⟩ := flushDecision_cases maxPrefillLen L (s.buckets L) h
  refine ⟨?_, ?_, ?_⟩ <;> intro hT
  · simp only [bucketCheck, hc1 hT]
    exact ⟨setBucket_buckets_self .., by rw [setBucket_trace]; rfl⟩
  · refine ⟨?_, ?_⟩
    · intro hb
      rw [hb] at hT
      simp [totalTrueLen] at hT
      omega
    · simp only [bucketCheck, hc2 hT]
      exact ⟨setBucket_buckets_self .., by rw [setBucket_trace]; rfl⟩
  · simp only [bucketCheck, hc3 hT]
    refine ⟨setBucket_buckets_self .., ?_⟩
    rw [setBucket_trace]
    simp [pushTraces]

/-- Witness for C2 at a concrete state: a bucket of 8 length-128
requests (total padded budget 1024 = maximum) whose total true length
968 lies in `(1024 − 64, 1024]`, so the whole bucket is flushed and the
bucket empties. -/
theorem c2_flush_trichotomy_witness :
    (1024 : Nat) ≤
      ((setBucket initSched 128
          (List.replicate 8 (0, ⟨9, List.replicate 128 1, 121⟩))).buckets 128).length * 128 ∧
    (bucketCheck 1024
        (setBucket initSched 128 (List.replicate 8 (0, ⟨9, List.replicate 128 1, 121⟩)))
        128).buckets 128 = [] :=
  ⟨by decide,
    ((c2_flush_trichotomy 1024 128
      (setBucket initSched 128 (List.replicate 8 (0, ⟨9, List.replicate 128 1, 121⟩)))
      (by decide)).1 (by decide)).1⟩

/-! ## Immediate single prefill conditions (claim C4) -/

set_option maxRecDepth 16384 in
/-- C4 counterexample: a length-128 request under maximum prefill length
1024 with an empty (hence small) bucket satisfies the claim's third
disjunct `L * bucket_size < max`, yet the producer defers it into the
length-128 bucket and performs no prefill at all (empty trace). -/
theorem c4_counterexample :
    (128 : Nat) * 1 < 1024 ∧
    (processRow 1024 true initSched 0 ⟨1, List.replicate 128 7, 100⟩).trace = [] ∧
    (processRow 1024 true initSched 0 ⟨1, List.replicate 128 7, 100⟩).buckets 128 =
      [(0, ⟨1, List.replicate 128 7, 100⟩)] := by decide

lemma halfFlush_buckets_ne (s : Sched) (padded_len k : Nat)
    (h : k ≠ padded_len / 2) :
    (halfFlush s padded_len).buckets k = s.buckets k := by
  simp only [halfFlush]
  split
  · rw [flushBucket_buckets_ne _ _ _ h, touchKey_buckets]
  · rw [touchKey_buckets]

lemma halfFlush_buckets_self (s : Sched) (padded_len : Nat) :
    (halfFlush s padded_len).buckets (padded_len / 2) = [] := by
  simp only [halfFlush]
  split
  · unfold flushBucket
    exact setBucket_buckets_self _ _ _
  · rename_i hne
    rw [touchKey_buckets]
    exact not_ne_iff.mp (by rw [touchKey_buckets] at hne; exact hne)

/-- C4 amended: an incoming request is prefilled immediately on its own
exactly in the first two cases — batched prefill disabled, in which case
the state changes only by recording the single prefill call, or padded
length equal to the maximum prefill length, in which case the non-empty
half-length bucket is flushed first (lines 426-428 run before the
maximum-length check), so that bucket is left empty, every other bucket
is unchanged, and the request itself is prefilled alone and never
deferred; and whenever the inner `prefill` function is called with
batching disabled, or at the maximum length, or on a bucket whose total
padded size is below the maximum, it takes the per-request path through
the length-L single-request compiled variant. -/
theorem c4_amended_immediate_single :
    (∀ (maxPrefillLen : Nat) (s : Sched) (slot : Nat) (row : InputData),
      processRow maxPrefillLen false s slot row = prefillSingle s slot row) ∧
    (∀ (maxPrefillLen : Nat) (s : Sched) (slot : Nat) (row : InputData),
      paddedLen row = maxPrefillLen →
      (processRow maxPrefillLen true s slot row).trace.getLast? = some [(slot, row)] ∧
      (processRow maxPrefillLen true s slot row).buckets (paddedLen row / 2) = [] ∧
      (∀ k, k ≠ paddedLen row / 2 →
        (processRow maxPrefillLen true s slot row).buckets k = s.buckets k)) ∧
    (∀ (enableBatchPref : Bool) (maxPrefillLen : Nat) (cachedPref : List Nat)
        (cachedPrefBatch : List (Nat × Nat)) (bucketLen L : Nat),
      (enableBatchPref = false ∨ L = maxPrefillLen ∨ L * bucketLen < maxPrefillLen) →
      L ∈ cachedPref →
      prefillPath false enableBatchPref maxPrefillLen cachedPref cachedPrefBatch bucketLen L =
        some (.singles L)) := by
  refine ⟨?_, ?_, ?_⟩
  · intro maxPrefillLen s slot row
    rfl
  · intro maxPrefillLen s slot row hlen
    have hpad : (paddedLen row == maxPrefillLen) = true := by simp [hlen]
    have hred : processRow maxPrefillLen true s slot row =
        prefillSingle (halfFlush s (paddedLen row)) slot row := by
      simp only [processRow, Bool.not_true, Bool.false_eq_true, if_false, hpad, if_true]
    rw [hred]
    refine ⟨?_, ?_, ?_⟩
    · simp [prefillSingle, pushTraces]
    · show (halfFlush s (paddedLen row)).buckets (paddedLen row / 2) = []
      exact halfFlush_buckets_self s (paddedLen row)
    · intro k hk
      show (halfFlush s (paddedLen row)).buckets k = s.buckets k
      exact halfFlush_buckets_ne s (paddedLen row) k hk
  · intro enableBatchPref maxPrefillLen cachedPref cachedPrefBatch bucketLen L hcond hmem
    have hc : (!enableBatchPref || L == maxPrefillLen
        || decide (L * bucketLen < maxPrefillLen)) = true := by
      rcases hcond with h | h | h <;> simp [h]
    simp [prefillPath, hc, hmem]

set_option maxRecDepth 16384 in
/-- Witness for C4 amended at concrete inputs: a request of padded
length 128 with maximum prefill length 128 is prefilled immediately; the
single-request variant is selected for length 128 under a bucket of
size 1. -/
theorem c4_amended_immediate_single_witness :
    (processRow 128 true initSched 0 ⟨1, List.replicate 128 7, 100⟩).trace.getLast? =
      some [(0, ⟨1, List.replicate 128 7, 100⟩)] ∧
    prefillPath false true 1024 [128] [] 1 128 = some (.singles 128) :=
  ⟨(c4_amended_immediate_single.2.1 128 initSched 0 ⟨1, List.replicate 128 7, 100⟩
      (by decide)).1,
    c4_amended_immediate_single.2.2 true 1024 [128] [] 1 128 (by omega) (by decide)⟩

/-! ## Conservation of requests through the bucketing engine (claims C1, C9) -/

lemma setBucket_eq (s : Sched) (k : Nat) (v : List (Nat × InputData)) :
    setBucket s k v =
      ⟨(touchKey s k).keys, Function.update (touchKey s k).buckets k v,
        (touchKey s k).trace⟩ := rfl

lemma bucketMS_def (s : Sched) :
    bucketMS s = (s.keys.map
      (fun j => ((s.buckets j : List (Nat × InputData)) :
        Multiset (Nat × InputData)))).sum := rfl

lemma mem_keys_touchKey (s : Sched) (k : Nat) : k ∈ (touchKey s k).keys := by
  unfold touchKey
  split
  · assumption
  · simp

lemma SchedWF_touchKey (s : Sched) (k : Nat) (h : SchedWF s) : SchedWF (touchKey s k) := by
  unfold touchKey
  split
  · exact h
  · rename_i hk
    refine ⟨?_, ?_⟩
    · simp [List.nodup_append, h.1, hk]
    · intro k' hk'
      simp only [List.mem_append, List.mem_singleton, not_or] at hk'
      exact h.2 k' hk'.1

lemma SchedWF_setBucket (s : Sched) (k : Nat) (v : List (Nat × InputData))
    (h : SchedWF s) : SchedWF (setBucket s k v) := by
  rw [setBucket_eq]
  have ht := SchedWF_touchKey s k h
  refine ⟨ht.1, ?_⟩
  intro k' hk'
  have hne : k' ≠ k := fun he => hk' (he ▸ mem_keys_touchKey s k)
  show Function.update (touchKey s k).buckets k v k' = []
  rw [Function.update_noteq hne]
  exact ht.2 k' hk'

lemma SchedWF_flushBucket (s : Sched) (k : Nat) (h : SchedWF s) :
    SchedWF (flushBucket s k) :=
  SchedWF_setBucket _ k [] ⟨h.1, h.2⟩

lemma SchedWF_initSched : SchedWF initSched :=
  ⟨List.nodup_nil, fun _ _ => rfl⟩

lemma coe_flatten_eq_sum (ls : List (List (Nat × InputData))) :
    ((ls.flatten : List (Nat × InputData)) : Multiset (Nat × InputData)) =
      (ls.map
        (fun l => ((l : List (Nat × InputData)) : Multiset (Nat × InputData)))).sum := by
  induction ls with
  | nil => rfl
  | cons a ls ih =>
    rw [List.flatten_cons, List.map_cons, List.sum_cons, ← ih, Multiset.coe_add]

lemma sum_update_mem (keys : List Nat) (f : Nat → List (Nat × InputData)) (k : Nat)
    (v : List (Nat × InputData)) (hnd : keys.Nodup) (hk : k ∈ keys) :
    (keys.map (fun j => ((Function.update f k v j : List (Nat × InputData)) :
        Multiset (Nat × InputData)))).sum +
      ((f k : List (Nat × InputData)) : Multiset (Nat × InputData)) =
    ((v : List (Nat × InputData)) : Multiset (Nat × InputData)) +
      (keys.map (fun j => ((f j : List (Nat × InputData)) :
        Multiset (Nat × InputData)))).sum := by
  have hperm := List.perm_cons_erase hk
  have hkout : k ∉ keys.erase k := (List.nodup_cons.mp (hperm.nodup hnd)).1
  have h1 := (hperm.map (fun j => ((Function.update f k v j : List (Nat × InputData)) :
      Multiset (Nat × InputData)))).sum_eq
  have h2 := (hperm.map (fun j => ((f j : List (Nat × InputData)) :
      Multiset (Nat × InputData)))).sum_eq
  rw [h1, h2, List.map_cons, List.map_cons, List.sum_cons, List.sum_cons,
    Function.update_same]
  have hmapeq : (keys.erase k).map
      (fun j => ((Function.update f k v j : List (Nat × InputData)) :
        Multiset (Nat × InputData))) =
      (keys.erase k).map (fun j => ((f j : List (Nat × InputData)) :
        Multiset (Nat × InputData))) := by
    apply List.map_congr_left
    intro j hj
    have hne : j ≠ k := fun he => hkout (he ▸ hj)
    rw [Function.update_noteq hne]
  rw [hmapeq]
  abel

lemma sum_update_append (keys : List Nat) (f : Nat → List (Nat × InputData)) (k : Nat)
    (v : List (Nat × InputData)) (hk : k ∉ keys) :
    ((keys ++ [k]).map (fun j => ((Function.update f k v j : List (Nat × InputData)) :
        Multiset (Nat × InputData)))).sum =
      ((v : List (Nat × InputData)) : Multiset (Nat × InputData)) +
        (keys.map (fun j => ((f j : List (Nat × InputData)) :
          Multiset (Nat × InputData)))).sum := by
  rw [List.map_append, List.sum_append, List.map_cons, List.map_nil, List.sum_cons,
    List.sum_nil, Function.update_same]
  have hmapeq : keys.map
      (fun j => ((Function.update f k v j : List (Nat × InputData)) :
        Multiset (Nat × InputData))) =
      keys.map (fun j => ((f j : List (Nat × InputData)) :
        Multiset (Nat × InputData))) := by
    apply List.map_congr_left
    intro j hj
    have hne : j ≠ k := fun he => hk (he ▸ hj)
    rw [Function.update_noteq hne]
  rw [hmapeq]
  abel

lemma bucketMS_setBucket (s : Sched) (k : Nat) (v : List (Nat × InputData))
    (hWF : SchedWF s) :
    bucketMS (setBucket s k v) + (s.buckets k : Multiset (Nat × InputData)) =
      (v : Multiset (Nat × InputData)) + bucketMS s := by
  obtain ⟨hnd, hout⟩ := hWF
  rw [setBucket_eq, bucketMS_def, bucketMS_def]
  by_cases hk : k ∈ s.keys
  · have htouch : touchKey s k = s := by unfold touchKey; rw [if_pos hk]
    rw [htouch]
    exact sum_update_mem s.keys s.buckets k v hnd hk
  · have htouch : touchKey s k = ⟨s.keys ++ [k], s.buckets, s.trace⟩ := by
      unfold touchKey; rw [if_neg hk]
    rw [htouch]
    show ((s.keys ++ [k]).map (fun j =>
        ((Function.update s.buckets k v j : List (Nat × InputData)) :
          Multiset (Nat × InputData)))).sum + _ = _
    rw [sum_update_append s.keys s.buckets k v hk, hout k hk]
    simp only [Multiset.coe_nil]
    abel

lemma touchKey_eq_of_mem (s : Sched) (k : Nat) (hk : k ∈ s.keys) :
    touchKey s k = s := by
  unfold touchKey
  rw [if_pos hk]

lemma touchKey_eq_of_not_mem (s : Sched) (k : Nat) (hk : k ∉ s.keys) :
    touchKey s k = ⟨s.keys ++ [k], s.buckets, s.trace⟩ := by
  unfold touchKey
  rw [if_neg hk]

lemma allMS_def (s : Sched) : allMS s = traceMS s + bucketMS s := rfl

lemma traceMS_def (s : Sched) :
    traceMS s = ((s.trace.flatten : List (Nat × InputData)) :
      Multiset (Nat × InputData)) := rfl

lemma allMS_touchKey (s : Sched) (k : Nat) (h : SchedWF s) :
    allMS (touchKey s k) = allMS s := by
  by_cases hk : k ∈ s.keys
  · rw [touchKey_eq_of_mem s k hk]
  · rw [touchKey_eq_of_not_mem s k hk, allMS_def, allMS_def, bucketMS_def, bucketMS_def]
    show traceMS s + ((s.keys ++ [k]).map _).sum = _
    rw [List.map_append, List.sum_append, List.map_cons, List.map_nil, List.sum_cons,
      List.sum_nil, h.2 k hk]
    simp only [Multiset.coe_nil, add_zero]

lemma traceMS_pushTraces (s : Sched) (bs : List (List (Nat × InputData))) :
    traceMS (pushTraces s bs) =
      traceMS s + ((bs.flatten : List (Nat × InputData)) : Multiset (Nat × InputData)) := by
  unfold pushTraces
  rw [traceMS_def, traceMS_def]
  show ((((s.trace ++ bs).flatten : List (Nat × InputData))) : Multiset (Nat × InputData)) = _
  rw [List.flatten_append, Multiset.coe_add]

lemma bucketMS_pushTraces (s : Sched) (bs : List (List (Nat × InputData))) :
    bucketMS (pushTraces s bs) = bucketMS s := rfl

lemma SchedWF_pushTraces (s : Sched) (bs : List (List (Nat × InputData)))
    (h : SchedWF s) : SchedWF (pushTraces s bs) := ⟨h.1, h.2⟩

lemma traceMS_setBucket (s : Sched) (k : Nat) (v : List (Nat × InputData)) :
    traceMS (setBucket s k v) = traceMS s := by
  rw [traceMS_def, traceMS_def, setBucket_trace]

lemma allMS_flushBucket (s : Sched) (k : Nat) (h : SchedWF s) :
    allMS (flushBucket s k) = allMS s := by
  unfold flushBucket
  have hbs := bucketMS_setBucket (pushTraces s [s.buckets k]) k [] (SchedWF_pushTraces s _ h)
  rw [bucketMS_pushTraces] at hbs
  have hbk : (pushTraces s [s.buckets k]).buckets k = s.buckets k := rfl
  rw [hbk] at hbs
  simp only [Multiset.coe_nil, zero_add] at hbs
  rw [allMS_def, allMS_def, traceMS_setBucket, traceMS_pushTraces]
  rw [← hbs]
  simp only [List.flatten_cons, List.flatten_nil, List.append_nil]
  abel

lemma dropLast_append_getLast?_toList (l : List (Nat × InputData)) :
    l.dropLast ++ l.getLast?.toList = l := by
  cases hl : l.getLast? with
  | none =>
    rcases List.eq_nil_or_concat l with rfl | ⟨l', a, rfl⟩
    · rfl
    · rw [List.concat_eq_append, List.getLast?_concat] at hl
      cases hl
  | some a =>
    simpa [Option.toList] using List.dropLast_append_getLast? a hl

lemma flushDecision_conserves (maxP L : Nat) (b : List (Nat × InputData)) :
    (((flushDecision maxP L b).1.flatten : List (Nat × InputData)) :
        Multiset (Nat × InputData)) +
      ((flushDecision maxP L b).2 : Multiset (Nat × InputData)) =
      (b : Multiset (Nat × InputData)) := by
  unfold flushDecision
  split
  · split
    · simp
    · split
      · simp only [List.flatten_cons, List.flatten_nil, List.append_nil]
        rw [Multiset.coe_add, Multiset.coe_eq_coe]
        rw [dropLast_append_getLast?_toList]
      · simp
  · simp

lemma allMS_bucketCheck (maxP : Nat) (s : Sched) (L : Nat) (h : SchedWF s) :
    allMS (bucketCheck maxP s L) = allMS s := by
  unfold bucketCheck
  have hbs := bucketMS_setBucket
      (pushTraces s (flushDecision maxP L (s.buckets L)).1) L
      (flushDecision maxP L (s.buckets L)).2 (SchedWF_pushTraces s _ h)
  rw [bucketMS_pushTraces] at hbs
  have hbk : (pushTraces s (flushDecision maxP L (s.buckets L)).1).buckets L =
      s.buckets L := rfl
  rw [hbk] at hbs
  have hcons := flushDecision_conserves maxP L (s.buckets L)
  refine add_right_cancel (b := ((s.buckets L : List (Nat × InputData)) :
      Multiset (Nat × InputData))) ?_
  rw [allMS_def, allMS_def, traceMS_setBucket, traceMS_pushTraces]
  rw [add_assoc, hbs, ← hcons]
  abel

lemma allMS_prefillSingle (s : Sched) (slot : Nat) (row : InputData) :
    allMS (prefillSingle s slot row) = (slot, row) ::ₘ allMS s := by
  unfold prefillSingle
  rw [allMS_def, allMS_def, traceMS_pushTraces, bucketMS_pushTraces]
  simp only [List.flatten_cons, List.flatten_nil, List.append_nil]
  rw [Multiset.coe_singleton, ← Multiset.singleton_add]
  abel

lemma SchedWF_halfFlush (s : Sched) (L : Nat) (h : SchedWF s) :
    SchedWF (halfFlush s L) := by
  simp only [halfFlush]
  split
  · exact SchedWF_flushBucket _ _ (SchedWF_touchKey _ _ h)
  · exact SchedWF_touchKey _ _ h

lemma allMS_halfFlush (s : Sched) (L : Nat) (h : SchedWF s) :
    allMS (halfFlush s L) = allMS s := by
  simp only [halfFlush]
  split
  · rw [allMS_flushBucket _ _ (SchedWF_touchKey _ _ h), allMS_touchKey _ _ h]
  · rw [allMS_touchKey _ _ h]

lemma SchedWF_bucketCheck (maxP : Nat) (s : Sched) (L : Nat) (h : SchedWF s) :
    SchedWF (bucketCheck maxP s L) := by
  unfold bucketCheck
  exact SchedWF_setBucket _ _ _ (SchedWF_pushTraces _ _ h)

lemma allMS_setBucket_append (s : Sched) (k : Nat) (p : Nat × InputData) (h : SchedWF s) :
    allMS (setBucket s k (s.buckets k ++ [p])) = p ::ₘ allMS s := by
  have hbs := bucketMS_setBucket s k (s.buckets k ++ [p]) h
  rw [allMS_def, allMS_def, traceMS_setBucket]
  refine add_right_cancel (b := ((s.buckets k : List (Nat × InputData)) :
      Multiset (Nat × InputData))) ?_
  rw [add_assoc, hbs, (Multiset.coe_add (s.buckets k) [p]).symm,
    ← Multiset.singleton_add, Multiset.coe_singleton]
  abel

lemma storedRow_id (eb : Bool) (maxP : Nat) (row : InputData) :
    (storedRow eb maxP row).id = row.id := by
  unfold storedRow
  split <;> rfl

lemma storedRow_true_length (eb : Bool) (maxP : Nat) (row : InputData) :
    (storedRow eb maxP row).true_length = row.true_length := by
  unfold storedRow
  split <;> rfl

lemma processRow_step (maxP : Nat) (eb : Bool) (s : Sched) (slot : Nat) (row : InputData)
    (h : SchedWF s) :
    SchedWF (processRow maxP eb s slot row) ∧
    allMS (processRow maxP eb s slot row) =
      (slot, storedRow eb maxP row) ::ₘ allMS s := by
  cases eb with
  | false =>
    refine ⟨⟨h.1, h.2⟩, ?_⟩
    show allMS (prefillSingle s slot row) = _
    rw [allMS_prefillSingle]
    have hsr : storedRow false maxP row = row := by
      unfold storedRow
      rw [if_neg (by simp)]
    rw [hsr]
  | true =>
    have h2 := SchedWF_halfFlush s (paddedLen row) h
    have e2 := allMS_halfFlush s (paddedLen row) h
    by_cases hmax : paddedLen row = maxP
    · have hbeq : (paddedLen row == maxP) = true := by simp [hmax]
      have hred : processRow maxP true s slot row =
          prefillSingle (halfFlush s (paddedLen row)) slot row := by
        simp only [processRow, Bool.not_true, Bool.false_eq_true, if_false, hbeq, if_true]
      rw [hred]
      refine ⟨⟨h2.1, h2.2⟩, ?_⟩
      rw [allMS_prefillSingle, e2]
      have hsr : storedRow true maxP row = row := by
        unfold storedRow
        rw [if_neg (by simp [hmax])]
      rw [hsr]
    · have hbeq : (paddedLen row == maxP) = false := by simp [hmax]
      by_cases h64 : paddedLen row = 64
      · have hb64 : (paddedLen row == 64) = true := by simp [h64]
        have hred : processRow maxP true s slot row =
            bucketCheck maxP (setBucket (halfFlush s (paddedLen row)) 128
              ((halfFlush s (paddedLen row)).buckets 128 ++ [(slot, extendRow row)])) 128 := by
          simp only [processRow, Bool.not_true, Bool.false_eq_true, if_false, hbeq, hb64,
            if_true]
        rw [hred]
        have h3 := SchedWF_setBucket (halfFlush s (paddedLen row)) 128
          ((halfFlush s (paddedLen row)).buckets 128 ++ [(slot, extendRow row)]) h2
        refine ⟨SchedWF_bucketCheck _ _ _ h3, ?_⟩
        rw [allMS_bucketCheck _ _ _ h3, allMS_setBucket_append _ _ _ h2, e2]
        have hsr : storedRow true maxP row = extendRow row := by
          unfold storedRow
          rw [if_pos ⟨rfl, hmax, h64⟩]
        rw [hsr]
      · have hb64 : (paddedLen row == 64) = false := by simp [h64]
        have hred : processRow maxP true s slot row =
            bucketCheck maxP (setBucket (halfFlush s (paddedLen row)) (paddedLen row)
              ((halfFlush s (paddedLen row)).buckets (paddedLen row) ++ [(slot, row)]))
              (paddedLen row) := by
          simp only [processRow, Bool.not_true, Bool.false_eq_true, if_false, hbeq, hb64]
        rw [hred]
        have h3 := SchedWF_setBucket (halfFlush s (paddedLen row)) (paddedLen row)
          ((halfFlush s (paddedLen row)).buckets (paddedLen row) ++ [(slot, row)]) h2
        refine ⟨SchedWF_bucketCheck _ _ _ h3, ?_⟩
        rw [allMS_bucketCheck _ _ _ h3, allMS_setBucket_append _ _ _ h2, e2]
        have hsr : storedRow true maxP row = row := by
          unfold storedRow
          rw [if_neg (by simp [h64])]
        rw [hsr]

lemma foldl_processRow (maxP : Nat) (eb : Bool) :
    ∀ (ps : List (Nat × InputData)) (s : Sched), SchedWF s →
      SchedWF (ps.foldl (fun t p => processRow maxP eb t p.1 p.2) s) ∧
      allMS (ps.foldl (fun t p => processRow maxP eb t p.1 p.2) s) =
        ((ps.map (fun p => (p.1, storedRow eb maxP p.2)) : List (Nat × InputData)) :
          Multiset (Nat × InputData)) + allMS s := by
  intro ps
  induction ps with
  | nil =>
    intro s hs
    exact ⟨hs, by simp⟩
  | cons p ps ih =>
    intro s hs
    rw [List.foldl_cons]
    obtain ⟨hw, he⟩ := processRow_step maxP eb s p.1 p.2 hs
    obtain ⟨hw2, he2⟩ := ih _ hw
    refine ⟨hw2, ?_⟩
    rw [he2, he, List.map_cons, ← Multiset.cons_coe, ← Multiset.singleton_add,
      ← Multiset.singleton_add]
    abel

lemma traceMS_finishRun (s : Sched) : traceMS (finishRun s) = allMS s := by
  rw [traceMS_def]
  show (((s.trace ++ s.keys.map s.buckets).flatten : List (Nat × InputData)) :
      Multiset (Nat × InputData)) = _
  rw [List.flatten_append, (Multiset.coe_add _ _).symm, allMS_def, traceMS_def]
  congr 1
  rw [coe_flatten_eq_sum, bucketMS_def, List.map_map]
  rfl

lemma runSched_trace_ids (maxP : Nat) (eb : Bool) (slotOf : Nat → Nat)
    (data : List InputData) :
    (traceMS (runSched maxP eb slotOf data)).map (fun p => p.2.id) =
      ((data.map InputData.id : List Nat) : Multiset Nat) := by
  unfold runSched
  obtain ⟨hw, he⟩ := foldl_processRow maxP eb (data.enum.map fun p => (slotOf p.1, p.2))
    initSched SchedWF_initSched
  rw [traceMS_finishRun, he]
  have h0 : allMS initSched = 0 := rfl
  rw [h0, add_zero, Multiset.map_coe, Multiset.coe_eq_coe, List.map_map, List.map_map]
  have hmap : List.map (((fun q : Nat × InputData => q.2.id) ∘
      fun q : Nat × InputData => (q.1, storedRow eb maxP q.2)) ∘
      fun q : Nat × InputData => (slotOf q.1, q.2)) data.enum =
      List.map (fun q : Nat × InputData => q.2.id) data.enum :=
    List.map_congr_left (fun p _ => by simp [Function.comp, storedRow_id])
  rw [hmap]
  have henum : data.enum.map (fun q : Nat × InputData => q.2.id) = data.map InputData.id := by
    have hsnd := List.enum_map_snd data
    calc data.enum.map (fun q : Nat × InputData => q.2.id)
        = (data.enum.map Prod.snd).map InputData.id := by rw [List.map_map]; rfl
      _ = data.map InputData.id := by rw [hsnd]
  rw [henum]

/-! ## `batch_inference` regrouping (claims C1, C10) -/

lemma filter_or_of_disjoint (s : Multiset InputData) (p q : InputData → Prop)
    [DecidablePred p] [DecidablePred q] (h : ∀ a, ¬(p a ∧ q a)) :
    Multiset.filter p s + Multiset.filter q s =
      Multiset.filter (fun a => p a ∨ q a) s := by
  rw [Multiset.filter_add_filter, Multiset.filter_eq_nil.mpr (fun a _ => h a), add_zero]

lemma regroup_ms (shuffle : Nat → List InputData → List InputData)
    (hs : ∀ L l, (shuffle L l).Perm l) (data : List InputData) :
    ((regroup shuffle data : List InputData) : Multiset InputData) =
      ((data.filter (fun r => decide (paddedLen r ∈ servedLengths)) : List InputData) :
        Multiset InputData) := by
  unfold regroup
  simp only [List.map_cons, List.map_nil, List.flatten_cons, List.flatten_nil,
    List.append_nil, reduceIte]
  rw [if_neg (show ¬(256 : Nat) = 128 by decide), if_neg (show ¬(512 : Nat) = 128 by decide),
    if_neg (show ¬(1024 : Nat) = 128 by decide)]
  have e128 := Multiset.coe_eq_coe.mpr (hs 128 (dataDict data 128 ++ dataDict data 64))
  have e256 := Multiset.coe_eq_coe.mpr (hs 256 (dataDict data 256))
  have e512 := Multiset.coe_eq_coe.mpr (hs 512 (dataDict data 512))
  have e1024 := Multiset.coe_eq_coe.mpr (hs 1024 (dataDict data 1024))
  rw [(Multiset.coe_add _ _).symm, (Multiset.coe_add _ _).symm, (Multiset.coe_add _ _).symm,
    e128, e256, e512, e1024, (Multiset.coe_add _ _).symm]
  unfold dataDict
  rw [← Multiset.filter_coe, ← Multiset.filter_coe, ← Multiset.filter_coe,
    ← Multiset.filter_coe, ← Multiset.filter_coe, ← Multiset.filter_coe]
  rw [filter_or_of_disjoint _ _ _ (fun a => by omega),
    filter_or_of_disjoint _ _ _ (fun a => by omega),
    filter_or_of_disjoint _ _ _ (fun a => by omega),
    filter_or_of_disjoint _ _ _ (fun a => by omega)]
  apply Multiset.filter_congr
  intro r _
  simp only [servedLengths, List.mem_cons, List.not_mem_nil, or_false, List.mem_singleton]
  constructor
  · intro hx
    omega
  · intro hx
    omega

/-- C1 counterexample: a single request of padded length 2048 (an
interesting bucket length, below the warm-up's supported maximum) is
silently discarded by `batch_inference`'s regrouping, which only serves
the groups 128/256/512/1024 (64 merged into 128): no prefill is ever
performed for it, so it is not prefilled exactly once. -/
theorem c1_counterexample :
    regroup (fun _ l => l) [⟨7, List.replicate 2048 1, 2000⟩] = [] ∧
    (traceMS (runSched 1024 true (fun i => i)
        (regroup (fun _ l => l) [⟨7, List.replicate 2048 1, 2000⟩]))).map
        (fun p => p.2.id) ≠
      (([⟨7, List.replicate 2048 1, 2000⟩] : List InputData).map InputData.id :
        Multiset Nat) := by
  have hlen : paddedLen ⟨7, List.replicate 2048 1, 2000⟩ = 2048 := by
    show (List.replicate 2048 1).length = 2048
    exact List.length_replicate ..
  have hdd : ∀ L : Nat, L ≠ 2048 →
      dataDict [⟨7, List.replicate 2048 1, 2000⟩] L = [] := by
    intro L hL
    unfold dataDict
    have hcond : (decide (paddedLen ⟨7, List.replicate 2048 1, 2000⟩ = L)) = false := by
      rw [decide_eq_false_iff_not, hlen]
      omega
    rw [List.filter_cons, hcond]
    simp only [Bool.false_eq_true, if_false, List.filter_nil]
  have hre : regroup (fun _ l => l) [⟨7, List.replicate 2048 1, 2000⟩] = [] := by
    unfold regroup
    simp only [List.map_cons, List.map_nil, List.flatten_cons, List.flatten_nil]
    rw [if_neg (show ¬(256 : Nat) = 128 by decide),
      if_neg (show ¬(512 : Nat) = 128 by decide),
      if_neg (show ¬(1024 : Nat) = 128 by decide)]
    rw [if_pos trivial]
    rw [hdd 128 (by decide), hdd 64 (by decide), hdd 256 (by decide),
      hdd 512 (by decide), hdd 1024 (by decide)]
    rfl
  refine ⟨hre, ?_⟩
  rw [hre]
  decide

/-- C1 amended: the serving pipeline prefills exactly once every
submitted request whose padded length lies in {64, 128, 256, 512, 1024}
— the multiset of identities passed to prefill calls equals the
identities of exactly those requests, with none dropped and none
duplicated, for every shuffle, slot assignment, maximum prefill length
and batching mode; requests of any other padded length are dropped by
the regrouping step before serving. -/
theorem c1_amended_no_drop_no_dup (maxPrefillLen : Nat) (enableBatchPref : Bool)
    (slotOf : Nat → Nat) (shuffle : Nat → List InputData → List InputData)
    (data : List InputData) (hs : ∀ L l, (shuffle L l).Perm l) :
    (traceMS (runSched maxPrefillLen enableBatchPref slotOf
        (regroup shuffle data))).map (fun p => p.2.id) =
      (((data.filter (fun r => decide (paddedLen r ∈ servedLengths))).map InputData.id :
        List Nat) : Multiset Nat) := by
  rw [runSched_trace_ids]
  have hmap := congrArg (Multiset.map InputData.id) (regroup_ms shuffle hs data)
  rw [Multiset.map_coe, Multiset.map_coe] at hmap
  exact hmap

/-- Witness for C1 amended: a single length-128 request is prefilled
exactly once. -/
theorem c1_amended_no_drop_no_dup_witness :
    (traceMS (runSched 1024 true (fun i => i)
        (regroup (fun _ l => l) [⟨1, List.replicate 128 3, 100⟩]))).map (fun p => p.2.id) =
      ((([⟨1, List.replicate 128 3, 100⟩] : List InputData).filter
        (fun r => decide (paddedLen r ∈ servedLengths))).map InputData.id : List Nat) :=
  c1_amended_no_drop_no_dup 1024 true (fun i => i) (fun _ l => l)
    [⟨1, List.replicate 128 3, 100⟩] (fun _ _ => List.Perm.refl _)

/-! ## Frame property of serving (claim C9) -/

/-- C9: one producer step adds exactly one stored (slot, request) pair to
the system (prefill trace plus buckets) and changes nothing else; the
stored request keeps the submitted identity and true length, and its
token sequence is the submitted one unless batching is enabled and the
padded length is 64 (≠ max), in which case it is exactly the submitted
sequence zero-extended by 64 and the request is reclassified to padded
length 128. -/
theorem c9_frame_only_64_extension (maxPrefillLen : Nat) (enableBatchPref : Bool)
    (s : Sched) (slot : Nat) (row : InputData) (h : SchedWF s) :
    allMS (processRow maxPrefillLen enableBatchPref s slot row) =
      (slot, storedRow enableBatchPref maxPrefillLen row) ::ₘ allMS s ∧
    (storedRow enableBatchPref maxPrefillLen row).id = row.id ∧
    (storedRow enableBatchPref maxPrefillLen row).true_length = row.true_length ∧
    (if enableBatchPref = true ∧ paddedLen row ≠ maxPrefillLen ∧ paddedLen row = 64 then
        (storedRow enableBatchPref maxPrefillLen row).tokens =
          row.tokens ++ List.replicate 64 0 ∧
        paddedLen (storedRow enableBatchPref maxPrefillLen row) = 128
      else (storedRow enableBatchPref maxPrefillLen row).tokens = row.tokens) := by
  refine ⟨(processRow_step _ _ _ _ _ h).2, storedRow_id .., storedRow_true_length .., ?_⟩
  by_cases hC : enableBatchPref = true ∧ paddedLen row ≠ maxPrefillLen ∧ paddedLen row = 64
  · rw [if_pos hC]
    unfold storedRow
    rw [if_pos hC]
    refine ⟨rfl, ?_⟩
    have h64 : row.tokens.length = 64 := hC.2.2
    show (extendRow row).tokens.length = 128
    unfold extendRow
    simp [h64]
  · rw [if_neg hC]
    unfold storedRow
    rw [if_neg hC]

/-- Witness for C9: a length-64 request really is zero-extended to
length 128, and exactly one pair is added to the empty state. -/
theorem c9_frame_only_64_extension_witness :
    allMS (processRow 1024 true initSched 0 ⟨5, List.replicate 64 2, 50⟩) =
      (0, storedRow true 1024 ⟨5, List.replicate 64 2, 50⟩) ::ₘ allMS initSched ∧
    (storedRow true 1024 ⟨5, List.replicate 64 2, 50⟩).tokens =
      List.replicate 64 2 ++ List.replicate 64 0 := by
  obtain ⟨h1, _, _, h4⟩ := c9_frame_only_64_extension 1024 true initSched 0
    ⟨5, List.replicate 64 2, 50⟩ SchedWF_initSched
  rw [if_pos ⟨rfl, by decide, by decide⟩] at h4
  exact ⟨h1, h4.1⟩

/-! ## Slot pool invariants (claim C5) -/

lemma allSlotsMS_coe (s : SlotState) :
    allSlotsMS s = ((s.empty_slots ++ s.pending.map Prod.fst ++
      s.slot_to_id.map Prod.fst : List Nat) : Multiset Nat) := by
  unfold allSlotsMS
  rw [Multiset.coe_add, Multiset.coe_add]

lemma outIdsMS_coe (s : SlotState) :
    outIdsMS s = ((s.pending.map Prod.snd ++ s.slot_to_id.map Prod.snd :
      List Nat) : Multiset Nat) := by
  unfold outIdsMS
  rw [Multiset.coe_add]

/-- The one identity added to the outstanding set by an event. -/
def acquiredId : SlotEv → Multiset Nat
  | .acquire i => {i}
  | _ => 0

lemma coe_append_add (x y : List Nat) :
    ((x ++ y : List Nat) : Multiset Nat) = (x : Multiset Nat) + (y : Multiset Nat) :=
  (Multiset.coe_add x y).symm

lemma map_fst_filter_notin (occ : List (Nat × Nat)) (slots : List Nat) :
    (occ.filter (fun p => decide (p.1 ∉ slots))).map Prod.fst =
      (occ.map Prod.fst).filter (fun k => decide (k ∉ slots)) := by
  induction occ with
  | nil => rfl
  | cons a occ ih =>
    by_cases ha : a.1 ∉ slots
    · rw [List.filter_cons_of_pos (by simpa using ha), List.map_cons, List.map_cons,
        List.filter_cons_of_pos (by simpa using ha), ih]
    · rw [List.filter_cons_of_neg (by simpa using ha), List.map_cons,
        List.filter_cons_of_neg (by simpa using ha), ih]

lemma pendingKeys_nodup {s : SlotState} (hnd : (allSlotsMS s).Nodup) :
    (s.pending.map Prod.fst).Nodup := by
  rw [← Multiset.coe_nodup]
  refine Multiset.nodup_of_le ?_ hnd
  unfold allSlotsMS
  calc ((s.pending.map Prod.fst : List Nat) : Multiset Nat)
      ≤ (s.empty_slots : Multiset Nat) + (s.pending.map Prod.fst : List Nat) :=
        le_add_self
    _ ≤ (s.empty_slots : Multiset Nat) + (s.pending.map Prod.fst : List Nat)
        + (s.slot_to_id.map Prod.fst : List Nat) := le_add_of_nonneg_right (zero_le _)

lemma slotStep_acquire (s : SlotState) (i : Nat) :
    slotStep s (.acquire i) =
      match s.empty_slots.getLast? with
      | none => none
      | some slot =>
        some ⟨s.empty_slots.dropLast, s.pending ++ [(slot, i)], s.slot_to_id⟩ := rfl

lemma slotStep_firstToken (s : SlotState) (slot : Nat) (terminate : Bool) :
    slotStep s (.firstToken slot terminate) =
      match s.pending.find? (fun p => p.1 == slot) with
      | none => none
      | some p =>
        if terminate then
          some ⟨s.empty_slots ++ [slot], s.pending.eraseP (fun q => q.1 == slot),
            s.slot_to_id⟩
        else
          some ⟨s.empty_slots, s.pending.eraseP (fun q => q.1 == slot),
            s.slot_to_id ++ [(slot, p.2)]⟩ := rfl

lemma slotStep_stepFree (s : SlotState) (slots : List Nat) :
    slotStep s (.stepFree slots) =
      if slots.Nodup ∧ ∀ x ∈ slots, x ∈ s.slot_to_id.map Prod.fst then
        some ⟨s.empty_slots ++ slots, s.pending,
          s.slot_to_id.filter (fun p => decide (p.1 ∉ slots))⟩
      else none := rfl

lemma slotStep_allSlots {s s' : SlotState} {e : SlotEv}
    (h : slotStep s e = some s') (hnd : (allSlotsMS s).Nodup) :
    allSlotsMS s' = allSlotsMS s := by
  cases e with
  | acquire i =>
    rw [slotStep_acquire] at h
    cases hl : s.empty_slots.getLast? with
    | none => rw [hl] at h; cases h
    | some slot =>
      rw [hl] at h
      cases h
      have hsplit : s.empty_slots.dropLast ++ [slot] = s.empty_slots :=
        List.dropLast_append_getLast? slot hl
      unfold allSlotsMS
      simp only [List.map_append, List.map_cons, List.map_nil]
      conv_rhs => rw [← hsplit]
      simp only [coe_append_add]
      abel
  | firstToken slot terminate =>
    rw [slotStep_firstToken] at h
    cases hf : s.pending.find? (fun p => p.1 == slot) with
    | none => rw [hf] at h; cases h
    | some q =>
      rw [hf] at h
      have hq0 := List.find?_some hf
      have hq : (q.1 == slot) = true := hq0
      have hqmem : q ∈ s.pending := List.mem_of_find?_eq_some hf
      obtain ⟨a, l₁, l₂, hnl, hpa, hdecomp, herase⟩ := @List.exists_of_eraseP (Nat × Nat) (fun r => r.1 == slot) s.pending q hqmem hq0
      have haslot : a.1 = slot := by simpa using hpa
      have hdecomp2 : s.pending = l₁ ++ [a] ++ l₂ := by
        rw [hdecomp]
        simp
      cases terminate with
      | true =>
        cases h
        unfold allSlotsMS
        rw [herase]
        conv_rhs => rw [hdecomp2]
        simp only [List.map_append, List.map_cons, List.map_nil, haslot, coe_append_add]
        abel
      | false =>
        cases h
        unfold allSlotsMS
        rw [herase]
        conv_rhs => rw [hdecomp2]
        simp only [List.map_append, List.map_cons, List.map_nil, haslot, coe_append_add]
        abel
  | stepFree slots =>
    rw [slotStep_stepFree] at h
    split at h
    case isFalse => cases h
    case isTrue hguard =>
      cases h
      obtain ⟨hslotsnd, hsub⟩ := hguard
      have hoccnd : ((s.slot_to_id.map Prod.fst : List Nat) : Multiset Nat).Nodup := by
        refine Multiset.nodup_of_le ?_ hnd
        unfold allSlotsMS
        exact le_add_self
      have hfin : Multiset.filter (fun k => k ∈ slots)
          ((s.slot_to_id.map Prod.fst : List Nat) : Multiset Nat) =
          ((slots : List Nat) : Multiset Nat) := by
        rw [Multiset.Nodup.ext (Multiset.Nodup.filter _ hoccnd)
          (Multiset.coe_nodup.mpr hslotsnd)]
        intro x
        rw [Multiset.mem_filter]
        constructor
        · rintro ⟨_, hx⟩
          exact hx
        · intro hx
          exact ⟨by simpa using hsub x hx, hx⟩
      have hsplit : ((s.slot_to_id.map Prod.fst : List Nat) : Multiset Nat) =
          ((slots : List Nat) : Multiset Nat) +
          Multiset.filter (fun k => ¬ k ∈ slots)
            ((s.slot_to_id.map Prod.fst : List Nat) : Multiset Nat) := by
        rw [← hfin, Multiset.filter_add_not]
      unfold allSlotsMS
      rw [map_fst_filter_notin, ← Multiset.filter_coe]
      conv_rhs => rw [hsplit]
      simp only [coe_append_add]
      abel

lemma slotStep_outIds_le {s s' : SlotState} {e : SlotEv}
    (h : slotStep s e = some s') (hnd : (allSlotsMS s).Nodup) :
    outIdsMS s' ≤ outIdsMS s + acquiredId e := by
  cases e with
  | acquire i =>
    rw [slotStep_acquire] at h
    cases hl : s.empty_slots.getLast? with
    | none => rw [hl] at h; cases h
    | some slot =>
      rw [hl] at h
      cases h
      have hacq : acquiredId (SlotEv.acquire i) = {i} := rfl
      rw [hacq]
      unfold outIdsMS
      simp only [List.map_append, List.map_cons, List.map_nil, coe_append_add]
      rw [Multiset.coe_singleton]
      exact le_of_eq (by abel)
  | firstToken slot terminate =>
    rw [slotStep_firstToken] at h
    cases hf : s.pending.find? (fun p => p.1 == slot) with
    | none => rw [hf] at h; cases h
    | some q =>
      rw [hf] at h
      have hq0 := List.find?_some hf
      have hq : (q.1 == slot) = true := hq0
      have hqmem : q ∈ s.pending := List.mem_of_find?_eq_some hf
      obtain ⟨a, l₁, l₂, hnl, hpa, hdecomp, herase⟩ := @List.exists_of_eraseP (Nat × Nat) (fun r => r.1 == slot) s.pending q hqmem hq0
      have haslot : a.1 = slot := by simpa using hpa
      have hqslot : q.1 = slot := by simpa using hq
      have hdecomp2 : s.pending = l₁ ++ [a] ++ l₂ := by
        rw [hdecomp]
        simp
      have haq : q = a := by
        have hpk := pendingKeys_nodup hnd
        rw [hdecomp] at hqmem hpk
        simp only [List.map_append, List.map_cons] at hpk
        rcases List.mem_append.mp hqmem with hin | hin
        · exact absurd hq (hnl q hin)
        · rcases List.mem_cons.mp hin with heq | hin
          · exact heq
          · exfalso
            have hnodup2 := (List.nodup_append.mp hpk).2.1
            have hnotin := (List.nodup_cons.mp hnodup2).1
            refine hnotin ?_
            rw [← haslot] at hqslot
            exact hqslot ▸ List.mem_map_of_mem Prod.fst hin
      cases terminate with
      | true =>
        cases h
        have hacq : acquiredId (SlotEv.firstToken slot true) = 0 := rfl
        rw [hacq, add_zero]
        unfold outIdsMS
        rw [herase]
        refine add_le_add ?_ le_rfl
        rw [Multiset.coe_le, hdecomp]
        exact (((List.sublist_cons_self a l₂).append_left l₁).map Prod.snd).subperm
      | false =>
        cases h
        have hacq : acquiredId (SlotEv.firstToken slot false) = 0 := rfl
        rw [hacq, add_zero]
        unfold outIdsMS
        rw [herase]
        conv_rhs => rw [hdecomp2]
        rw [haq]
        simp only [List.map_append, List.map_cons, List.map_nil, coe_append_add]
        exact le_of_eq (by abel)
  | stepFree slots =>
    rw [slotStep_stepFree] at h
    split at h
    case isFalse => cases h
    case isTrue hguard =>
      cases h
      have hacq : acquiredId (SlotEv.stepFree slots) = 0 := rfl
      rw [hacq, add_zero]
      unfold outIdsMS
      refine add_le_add le_rfl ?_
      rw [Multiset.coe_le]
      exact ((List.filter_sublist _).map Prod.snd).subperm

lemma runSlotsFrom_cons (s : SlotState) (e : SlotEv) (evs : List SlotEv) :
    runSlotsFrom s (e :: evs) =
      match slotStep s e with
      | none => none
      | some s1 => runSlotsFrom s1 evs := rfl

lemma runSlotsFrom_inv :
    ∀ (evs : List SlotEv) (s s' : SlotState),
      runSlotsFrom s evs = some s' →
      (allSlotsMS s).Nodup →
      (outIdsMS s).Nodup →
      (acquireIds evs).Nodup →
      (∀ i ∈ acquireIds evs, i ∉ outIdsMS s) →
      (allSlotsMS s').Nodup ∧ allSlotsMS s' = allSlotsMS s ∧ (outIdsMS s').Nodup := by
  intro evs
  induction evs with
  | nil =>
    intro s s' h h1 h2 _ _
    cases h
    exact ⟨h1, rfl, h2⟩
  | cons e evs ih =>
    intro s s' h h1 h2 h3 h4
    rw [runSlotsFrom_cons] at h
    cases hstep : slotStep s e with
    | none => rw [hstep] at h; cases h
    | some s1 =>
      rw [hstep] at h
      have hall : allSlotsMS s1 = allSlotsMS s := slotStep_allSlots hstep h1
      have hle : outIdsMS s1 ≤ outIdsMS s + acquiredId e := slotStep_outIds_le hstep h1
      have hAtail : (acquireIds evs).Nodup ∧
          (∀ i ∈ acquireIds evs, i ∉ outIdsMS s + acquiredId e) := by
        cases e with
        | acquire j =>
          have hcons : acquireIds (SlotEv.acquire j :: evs) = j :: acquireIds evs := rfl
          rw [hcons] at h3 h4
          obtain ⟨hjn, htail⟩ := List.nodup_cons.mp h3
          refine ⟨htail, ?_⟩
          intro i hi hmem
          rw [Multiset.mem_add] at hmem
          rcases hmem with hmem | hmem
          · exact h4 i (List.mem_cons_of_mem j hi) hmem
          · have hij : i = j := by simpa [acquiredId] using hmem
            exact hjn (hij ▸ hi)
        | firstToken slot terminate =>
          have hcons : acquireIds (SlotEv.firstToken slot terminate :: evs) =
              acquireIds evs := rfl
          rw [hcons] at h3 h4
          refine ⟨h3, ?_⟩
          intro i hi hmem
          rw [Multiset.mem_add] at hmem
          rcases hmem with hmem | hmem
          · exact h4 i hi hmem
          · simp [acquiredId] at hmem
        | stepFree slots =>
          have hcons : acquireIds (SlotEv.stepFree slots :: evs) = acquireIds evs := rfl
          rw [hcons] at h3 h4
          refine ⟨h3, ?_⟩
          intro i hi hmem
          rw [Multiset.mem_add] at hmem
          rcases hmem with hmem | hmem
          · exact h4 i hi hmem
          · simp [acquiredId] at hmem
      have hnd1 : (outIdsMS s1).Nodup := by
        refine Multiset.nodup_of_le hle ?_
        cases e with
        | acquire j =>
          have hfresh : j ∉ outIdsMS s := by
            apply h4
            show j ∈ acquireIds (SlotEv.acquire j :: evs)
            exact List.mem_cons_self j _
          have hsing : acquiredId (SlotEv.acquire j) = {j} := rfl
          rw [hsing, add_comm, Multiset.singleton_add]
          exact Multiset.Nodup.cons hfresh h2
        | firstToken slot terminate =>
          have hz : acquiredId (SlotEv.firstToken slot terminate) = 0 := rfl
          rw [hz, add_zero]
          exact h2
        | stepFree slots =>
          have hz : acquiredId (SlotEv.stepFree slots) = 0 := rfl
          rw [hz, add_zero]
          exact h2
      have h4' : ∀ i ∈ acquireIds evs, i ∉ outIdsMS s1 := by
        intro i hi hmem
        exact hAtail.2 i hi (Multiset.mem_of_le hle hmem)
      obtain ⟨ha, hb, hc⟩ := ih s1 s' h (hall ▸ h1) hnd1 hAtail.1 h4'
      exact ⟨ha, by rw [hb, hall], hc⟩

/-- C5: at every state reachable by the slot-pool transitions of
`batch_inference_with_callback` — the producer pops the last free slot
for a request (line 419), the emission loop registers or immediately
releases a first-token entry's slot (lines 364-371) and batch-releases
the `newly_empty` slots of a step entry (lines 372-384) — the free list,
the in-flight pairs and the occupancy map hold pairwise distinct slots,
so each slot is occupied by at most one identity, no slot is
simultaneously free and occupied, and no two acquisitions can yield the
same slot before a matching release; and, provided the served requests
carry pairwise distinct identities, each identity occupies at most one
slot (in flight or registered). -/
theorem c5_slot_pool_invariants (batch_size : Nat) (evs : List SlotEv) (s : SlotState)
    (hids : (acquireIds evs).Nodup) (hrun : runSlots batch_size evs = some s) :
    (s.empty_slots ++ s.pending.map Prod.fst ++ s.slot_to_id.map Prod.fst).Nodup ∧
    (s.slot_to_id.map Prod.fst).Nodup ∧
    (∀ x ∈ s.empty_slots, x ∉ s.slot_to_id.map Prod.fst) ∧
    (s.pending.map Prod.snd ++ s.slot_to_id.map Prod.snd).Nodup := by
  have hinit1 : (allSlotsMS (initSlots batch_size)).Nodup := by
    unfold allSlotsMS initSlots
    simp [List.nodup_range]
  have hinit2 : (outIdsMS (initSlots batch_size)).Nodup := by
    unfold outIdsMS initSlots
    simp
  have hinit4 : ∀ i ∈ acquireIds evs, i ∉ outIdsMS (initSlots batch_size) := by
    intro i _ hmem
    unfold outIdsMS initSlots at hmem
    simp at hmem
  obtain ⟨ha, _, hc⟩ := runSlotsFrom_inv evs (initSlots batch_size) s hrun
    hinit1 hinit2 hids hinit4
  rw [allSlotsMS_coe, Multiset.coe_nodup] at ha
  rw [outIdsMS_coe, Multiset.coe_nodup] at hc
  refine ⟨ha, (List.nodup_append.mp ha).2.1, ?_, hc⟩
  intro x hx hmem
  obtain ⟨_, _, hdisj⟩ := List.nodup_append.mp ha
  exact hdisj (List.mem_append_left _ hx) hmem

/-- Witness for C5: pool of two slots; one request with identity 3
acquires slot 1 and is registered occupied by its first-token entry. -/
theorem c5_slot_pool_invariants_witness :
    ((⟨[0], [], [(1, 3)]⟩ : SlotState).empty_slots ++
      (⟨[0], [], [(1, 3)]⟩ : SlotState).pending.map Prod.fst ++
      (⟨[0], [], [(1, 3)]⟩ : SlotState).slot_to_id.map Prod.fst).Nodup ∧
    (∀ x ∈ (⟨[0], [], [(1, 3)]⟩ : SlotState).empty_slots,
      x ∉ (⟨[0], [], [(1, 3)]⟩ : SlotState).slot_to_id.map Prod.fst) := by
  obtain ⟨ha, _, hc, _⟩ := c5_slot_pool_invariants 2
    [SlotEv.acquire 3, SlotEv.firstToken 1 false] ⟨[0], [], [(1, 3)]⟩
    (by decide) (by decide)
  exact ⟨ha, hc⟩

/-! ## Shuffle nondeterminism and order independence (claim C10) -/

lemma foldl_applyEmit (eos_id : Nat) :
    ∀ (es : List (Nat × Nat)) (res : Nat → List Nat) (i : Nat),
      (es.foldl (applyEmit eos_id) res) i =
        ((es.filter (fun e => e.1 == i)).map Prod.snd).foldl
          (callbackStep eos_id) (res i) := by
  intro es
  induction es with
  | nil => intro res i; rfl
  | cons e es ih =>
    intro res i
    rw [List.foldl_cons, ih]
    by_cases hi : e.1 = i
    · rw [List.filter_cons_of_pos (by simp [hi]), List.map_cons, List.foldl_cons]
      congr 1
      unfold applyEmit
      rw [if_pos hi.symm, hi]
    · rw [List.filter_cons_of_neg (by simp [hi])]
      congr 1
      unfold applyEmit
      rw [if_neg (fun he => hi he.symm)]

set_option maxRecDepth 16384 in
/-- C10: `batch_inference` does not serve requests in submission order
(already with the identity shuffle, a 256-then-128 submission is served
128-then-256); the served order depends on the shuffle drawn by the
unseeded random number generator (two permutation-preserving shuffles
produce different served orders on the same input), so two runs may
differ; and the returned per-identity mapping is independent of the
interleaving of emissions across identities: each identity's recorded
sequence is exactly the fold of its own emission subsequence. -/
theorem c10_shuffle_nondeterminism :
    (regroup (fun _ l => l)
        [⟨2, List.replicate 256 0, 200⟩, ⟨1, List.replicate 128 0, 100⟩] ≠
      [⟨2, List.replicate 256 0, 200⟩, ⟨1, List.replicate 128 0, 100⟩]) ∧
    ((∀ l : List InputData, l.reverse.Perm l) ∧
      regroup (fun _ l => l.reverse)
        [⟨1, List.replicate 128 0, 100⟩, ⟨2, List.replicate 128 0, 200⟩] ≠
      regroup (fun _ l => l)
        [⟨1, List.replicate 128 0, 100⟩, ⟨2, List.replicate 128 0, 200⟩]) ∧
    (∀ (eos_id : Nat) (es : List (Nat × Nat)) (i : Nat),
      runEmissions eos_id es i =
        recordedTokens eos_id ((es.filter (fun e => e.1 == i)).map Prod.snd)) := by
  refine ⟨by decide, ⟨fun l => List.reverse_perm l, by decide⟩, ?_⟩
  intro eos_id es i
  unfold runEmissions recordedTokens
  rw [foldl_applyEmit]

/-- Witness for C6 at a concrete stream: with marker 2, the stream
[5, 2, 2, 7] is recorded with at most one marker, and appending a token
to a marker-terminated sequence is the identity. -/
theorem c6_eos_tail_idempotent_witness :
    (recordedTokens 2 [5, 2, 2, 7]).count 2 ≤ 1 ∧
    callbackStep 2 ([5] ++ [2]) 9 = [5] ++ [2] :=
  ⟨(c6_eos_tail_idempotent.1 2 [5, 2, 2, 7]).1, c6_eos_tail_idempotent.2 2 [5] 9⟩

/-- Witness for C7 at a concrete state: one occupied slot whose callback
terminates it, with an empty queue, makes the step entry exit the loop. -/
theorem c7_detokenize_exit_iff_witness :
    (detokenizeStep 8 (fun _ _ => false) (fun _ _ => true) [(0, 5)] []
      (.step (fun _ => (9, true, 3))) true).2.2 = true :=
  ((c7_detokenize_exit_iff 8 (fun _ _ => false) (fun _ _ => true) [(0, 5)] [] true).2
    (fun _ => (9, true, 3))).mpr ⟨by decide, rfl, by decide⟩

end OfflineInf
